import Mathlib

/-!
Shallow embedding of the `modelez` reactive-state runtime (TypeScript) and
proofs about it.  Each section embeds one source module:

* `CallbackGroup`   — `src/lib/callbackGroup.ts`
* `StaticState`     — `createStaticState` (static reactive cell)
* `InstanceProxy`   — the Proxy `get`/`ownKeys` handlers of `createInstance.ts`
* `AsyncWait`       — `waitAll` of `src/lib/async.ts`
* `DeferM`          — `createDefer` of `src/lib/async.ts`
* `EffectM`         — `createEffect` (dependency tracker)
* `ResourceM`       — `createResource.ts` (resource state machine)
* `ContainerGet`    — `container.get` of `createContainer.ts`
* `ContainerBackup` — `container.backup` of `createContainer.ts`

JavaScript callbacks are modelled by numeric identifiers, JS values by `Nat`
where only identity comparison matters, and object identity (where the code
compares references with `===` or `!==`) by explicit allocation counters.
-/

namespace CallbackGroup

/-! ### callbackGroup (src/lib/callbackGroup.ts)

A callback is identified by a numeric id (the JS function object's identity).
The group keeps an ordered list `callbacks`; calling the group with new
callbacks appends them (`callbacks.push(...newCallbacks)`) and returns a
remover closure capturing `newCallbacks` and an `active` flag.  Running the
remover, when still active, deactivates it and for each captured callback
removes the first stored occurrence (`indexOf` + `splice`). -/

abbrev Cb := Nat

structure GroupState where
  callbacks : List Cb
deriving DecidableEq, Repr

/-- The remover closure returned by one registration call: the list of
callbacks captured by that call plus its `active` flag. -/
structure Remover where
  registered : List Cb
  active : Bool
deriving DecidableEq, Repr

/-- `callbacks.push(...newCallbacks)`; the returned remover starts active. -/
def register (s : GroupState) (newCallbacks : List Cb) : GroupState × Remover :=
  ({ callbacks := s.callbacks ++ newCallbacks }, ⟨newCallbacks, true⟩)

/-- One `indexOf`/`splice` step: remove the first occurrence of `c`. -/
def eraseFirst (l : List Cb) (c : Cb) : List Cb :=
  l.erase c

/-- Running the remover: if inactive, do nothing; otherwise deactivate and
erase the first occurrence of each captured callback in order. -/
def runRemover (r : Remover) (s : GroupState) : Remover × GroupState :=
  if r.active then
    (⟨r.registered, false⟩,
      { callbacks := r.registered.foldl eraseFirst s.callbacks })
  else
    (r, s)
end CallbackGroup

namespace StaticState

/-! ### createStaticState

`createStaticState(initialValue)` closes over `currentValue` and a
`callbackGroup` of subscribers.  Calling the state with an argument writes:
an updater-function argument is applied to the previous value first; then,
only if `currentValue !== newValue`, the value is stored and every
subscriber is invoked (synchronously) with the new value.  Values are
modelled by `Nat`, for which Lean equality coincides with JS identity.
Subscribers are callback ids; the notifications produced by one write are
returned alongside the new cell so the synchronous dispatch is observable. -/

structure StateCell where
  currentValue : Nat
  subscribers : List Nat
deriving DecidableEq, Repr

/-- Result of one write call: the cell afterwards, plus the list of
(subscriber, argument) invocations that happened before the call returned. -/
structure WriteResult where
  cell : StateCell
  notifications : List (Nat × Nat)
deriving DecidableEq, Repr

/-- Write a plain value: no-op (and no notifications) if identical to the
current value, otherwise store it and invoke every subscriber with it. -/
def setValue (s : StateCell) (newValue : Nat) : WriteResult :=
  if s.currentValue = newValue then
    ⟨s, []⟩
  else
    ⟨{ s with currentValue := newValue },
      s.subscribers.map (fun c => (c, newValue))⟩

/-- Write through an updater function: `args[0](currentValue)` produces the
value actually written. -/
def setUpdater (s : StateCell) (f : Nat → Nat) : WriteResult :=
  setValue s (f s.currentValue)

/-- Reading the state returns the current value. -/
def getValue (s : StateCell) : Nat :=
  s.currentValue
end StaticState

namespace InstanceProxy

/-! ### the instance Proxy of createInstance.ts

The instance facade is a Proxy whose `get` handler special-cases the
strings `"init"` (always `undefined`) and `"dispose"` (always the
instance's dispose closure) before consulting
`Object.getOwnPropertyDescriptors(originalProps)`.  A descriptor is
resolved to: the getter's result for accessor properties; a bound wrapper
for function values that carry exactly the normal function property count;
the raw value otherwise.  `ownKeys` returns
`Object.keys(originalProps).concat("dispose")`. -/

/-- A property descriptor of the builder's returned props object. -/
inductive PropVal
  /-- a function-valued data property; `normal` records whether it has
  exactly the property count of a plain function -/
  | func (fid : Nat) (normal : Bool)
  /-- an accessor property whose getter returns `v` -/
  | getter (v : Nat)
  /-- a plain data property holding value `v` -/
  | plain (v : Nat)
deriving DecidableEq, Repr

/-- What a property read through the Proxy yields. -/
inductive ReadResult
  | undef
  | disposeFn
  | wrapped (fid : Nat)
  | rawFunc (fid : Nat)
  | value (v : Nat)
deriving DecidableEq, Repr

/-- Resolution of a found descriptor (the body of the getter built and
cached in `getters`). -/
def resolveDescr : PropVal → ReadResult
  | .getter v => .value v
  | .func fid true => .wrapped fid
  | .func fid false => .rawFunc fid
  | .plain v => .value v

/-- The Proxy `get` handler restricted to string property names.
(`MODEL_INSTANCE_SYMBOL` and other symbols are non-string and out of
scope of the modelled reads.) -/
def instanceGet (props : List (String × PropVal)) (prop : String) : ReadResult :=
  if prop = "init" then .undef
  else if prop = "dispose" then .disposeFn
  else
    match props.find? (fun e => e.1 = prop) with
    | none => .undef
    | some e => resolveDescr e.2

/-- The Proxy `ownKeys` handler: `Object.keys(originalProps).concat("dispose")`. -/
def instanceKeys (props : List (String × PropVal)) : List String :=
  props.map (fun e => e.1) ++ ["dispose"]
end InstanceProxy

namespace AsyncWait

/-! ### waitAll (src/lib/async.ts)

`waitAll` first maps every future through `getResult`, obtaining cached
classification records `{status, value}` (the `value` field holds the
resolved value or the rejection reason and is `undefined` while pending).
It then looks for a rejected record (`results.find`), else checks for a
pending one (`results.some`), else maps out the values.  The synchronous
form throws in the first two cases; the callback form invokes
`onRejected` / `onPending` / `onResolved` instead.  The classification
records are the model's input; `Option Nat` models the JS `value` field
with `none` for `undefined`. -/

inductive PStatus
  | pending
  | resolvedS
  | rejectedS
deriving DecidableEq, Repr

/-- The cached `PromiseResult` record of one future. -/
structure PResult where
  status : PStatus
  value : Option Nat
deriving DecidableEq, Repr

/-- Outcome of the synchronous (no-callback) form of `waitAll`. -/
inductive SyncOutcome
  | returned (vs : List (Option Nat))
  | threwReason (e : Option Nat)
  | threwCombined
deriving DecidableEq, Repr

/-- Which callback the callback form invoked, with its argument. -/
inductive CbOutcome
  | calledResolved (vs : List (Option Nat))
  | calledRejected (e : Option Nat)
  | calledPending
deriving DecidableEq, Repr

/-- Synchronous form: throw the first rejected record's value; else, if any
record is pending, throw the combined `Promise.all`; else return the list
of values. -/
def waitAllSync (rs : List PResult) : SyncOutcome :=
  match rs.find? (fun r => decide (r.status = .rejectedS)) with
  | some r => .threwReason r.value
  | none =>
      if rs.any (fun r => decide (r.status = .pending)) then .threwCombined
      else .returned (rs.map (fun r => r.value))

/-- Callback form: same three-way case split, invoking `onRejected`,
`onPending`, or `onResolved` respectively. -/
def waitAllCb (rs : List PResult) : CbOutcome :=
  match rs.find? (fun r => decide (r.status = .rejectedS)) with
  | some r => .calledRejected r.value
  | none =>
      if rs.any (fun r => decide (r.status = .pending)) then .calledPending
      else .calledResolved (rs.map (fun r => r.value))
end AsyncWait

namespace DeferM

/-! ### createDefer (src/lib/async.ts)

`createDefer` builds a promise together with a controller closing over the
delivered `status`, the decided `realStatus`/`realValue`, and an
`isPausing` flag.  `resolve`/`reject` only act while `realStatus` is
pending; `syncStatus` delivers the decided outcome to the promise unless
pausing.  `pause` is inert once the public `status` is non-pending,
otherwise sets `isPausing` and returns an unpause closure that re-checks
the shared flag.  The promise executor's `resolve`/`reject` are modelled
by the `delivered` field (a JS promise keeps the first delivery). -/

inductive DStatus
  | pending
  | resolved
  | rejected
deriving DecidableEq, Repr

/-- A decided outcome: a resolution value or a rejection reason. -/
inductive Outcome
  | value (v : Nat)
  | reason (e : Nat)
deriving DecidableEq, Repr

structure DeferState where
  /-- the public `status` the getter reports (updated on delivery) -/
  status : DStatus
  /-- the decided status (`realStatus` in the source) -/
  realStatus : DStatus
  /-- the decided outcome (`realValue`; `none` while undecided) -/
  realValue : Option Outcome
  /-- the `isPausing` flag -/
  isPausing : Bool
  /-- what the promise executor has received (first call wins) -/
  delivered : Option Outcome
deriving DecidableEq, Repr

def initialDefer : DeferState :=
  ⟨.pending, .pending, none, false, none⟩

/-- `syncStatus`: deliver the decided outcome unless undecided or paused. -/
def syncStatus (s : DeferState) : DeferState :=
  if s.realStatus = .pending ∨ s.isPausing then s
  else
    { s with
      status := s.realStatus
      delivered := match s.delivered with
                   | some o => some o
                   | none => s.realValue }

/-- `defer.resolve(value)`. -/
def resolveD (v : Nat) (s : DeferState) : DeferState :=
  if s.realStatus ≠ .pending then s
  else syncStatus { s with realStatus := .resolved, realValue := some (.value v) }

/-- `defer.reject(reason)`. -/
def rejectD (e : Nat) (s : DeferState) : DeferState :=
  if s.realStatus ≠ .pending then s
  else syncStatus { s with realStatus := .rejected, realValue := some (.reason e) }

/-- `defer.pause()`: returns the state together with `true` when a live
unpause closure was handed out, `false` when the inert `noop` was. -/
def pauseD (s : DeferState) : DeferState × Bool :=
  if s.status ≠ .pending then (s, false)
  else ({ s with isPausing := true }, true)

/-- Running the unpause closure returned by `pause` (`real = false` is the
inert `noop`). -/
def unpauseD (real : Bool) (s : DeferState) : DeferState :=
  if real then
    if s.isPausing then syncStatus { s with isPausing := false } else s
  else s

/-- States reachable from `initialDefer`: the decided outcome exists iff
decided; once the public status is set it mirrors the decided one and the
outcome has been delivered; nothing is delivered while publicly pending. -/
def DeferInv (s : DeferState) : Prop :=
  (s.realValue = none ↔ s.realStatus = .pending)
  ∧ (s.status ≠ .pending →
       s.status = s.realStatus ∧ s.delivered = s.realValue ∧ s.isPausing = false)
  ∧ (s.status = .pending → s.delivered = none)
end DeferM

namespace EffectM

/-! ### createEffect (effect/dependency tracker)

`createEffect(dependencies, fn)` keeps a `cleanupNotifier` of unsubscribe
closures.  The per-run accessor Proxy, on each property read, subscribes
`handleChange` to that dependency's notifier, records the unsubscribe in
the cleanup group, and returns the current value; `handleChange` first
`invokeAndClear`s the cleanup group and then reruns `fn`.  Dependencies
are named by `Nat`; `fn` is abstracted by `reads`, the ordered list of
dependency names it reads as a function of the current values; `counts d`
is the number of `handleChange` entries in dependency `d`'s subscriber
list.  A static-state write to a changed dependency invokes a frozen copy
of its subscriber list, i.e. runs `handleChange` once per entry. -/

abbrev DepName := Nat

/-- Pointwise function update used for dependency values and counts. -/
def updFn {α : Type} (f : Nat → α) (d : Nat) (v : α) : Nat → α :=
  fun x => if x = d then v else f x

structure EffectState (V : Type) where
  /-- current value of each dependency -/
  values : DepName → V
  /-- live `handleChange` subscriptions per dependency -/
  counts : DepName → Nat
  /-- the cleanup group: one recorded unsubscribe per subscription made -/
  cleanup : List DepName
  /-- number of completed invocations of `fn` -/
  runs : Nat

/-- One accessor read of dependency `d` during a run: subscribe
`handleChange` to `d` and record the unsubscribe. -/
def readDep {V : Type} (s : EffectState V) (d : DepName) : EffectState V :=
  { s with
    counts := updFn s.counts d (s.counts d + 1)
    cleanup := s.cleanup ++ [d] }

/-- Invoking `fn(accessors)`: performs the reads dictated by the current
values, in order. -/
def runFn {V : Type} (reads : (DepName → V) → List DepName)
    (s : EffectState V) : EffectState V :=
  (reads s.values).foldl readDep { s with runs := s.runs + 1 }

/-- One unsubscribe recorded in the cleanup group: removes one
`handleChange` entry from `d`'s subscriber list. -/
def unsubscribeDep (counts : DepName → Nat) (d : DepName) : DepName → Nat :=
  updFn counts d (counts d - 1)

/-- `handleChange`: clear all previous subscriptions, then rerun `fn`. -/
def handleChange {V : Type} (reads : (DepName → V) → List DepName)
    (s : EffectState V) : EffectState V :=
  runFn reads
    { s with counts := s.cleanup.foldl unsubscribeDep s.counts, cleanup := [] }

/-- `createEffect`'s eager first run, from no subscriptions. -/
def initialEffect {V : Type} (reads : (DepName → V) → List DepName)
    (values : DepName → V) : EffectState V :=
  runFn reads { values := values, counts := fun _ => 0, cleanup := [], runs := 0 }

/-- A dependency's value changes to `v`: its notifier dispatches against a
frozen copy of the subscriber list, running `handleChange` once per
currently held subscription. -/
def changeDep {V : Type} (reads : (DepName → V) → List DepName)
    (s : EffectState V) (d : DepName) (v : V) : EffectState V :=
  (handleChange reads)^[s.counts d] { s with values := updFn s.values d v }

/-- The cleanup group records exactly the live subscriptions. -/
def EffInv {V : Type} (s : EffectState V) : Prop :=
  ∀ d, s.counts d = s.cleanup.count d
end EffectM

namespace ResourceM

/-! ### createResource (src/lib/createResource.ts)

The resource keeps `current : {status, value}`, a version counter (a
static state wired as one more effect dependency), a deferred controller
`defer` (replaced with a fresh one on effect rerun when the previous one
settled; controller identity is modelled by the allocation counter
`deferGen`), and mirrors its state into the future status cache via
`setResult(resource, ...)` (`futureCache`).  The effect body invokes the
loader through `convertToPromise` and `waitAll`'s callback form: the
pending callback fires synchronously, the resolve/reject callbacks fire
when the loader settles; each callback closes over the controller `d`
current at effect-run time, and starts with the staleness guard
`if (disposed || d !== defer) return`.  A load's later settlement is
modelled by applying `onResolvedCb`/`onRejectedCb` with the captured
generation. -/

inductive LStatus
  | idle
  | loading
  | failed
  | succeeded
deriving DecidableEq, Repr

structure ResourceData where
  status : LStatus
  value : Option Nat
deriving DecidableEq, Repr

structure ResState where
  /-- the version static state's current value -/
  version : Nat
  /-- the `current` resource data -/
  current : ResourceData
  /-- loadables handed to `onChangeNotifier.invoke`, in order -/
  notifications : List ResourceData
  /-- identity of the current deferred controller -/
  deferGen : Nat
  /-- delivered status of the current deferred controller -/
  deferStatus : DeferM.DStatus
  /-- the `setResult` mirror of the resource in the future status cache -/
  futureCache : Option AsyncWait.PResult
  disposed : Bool
deriving DecidableEq, Repr

/-- `update(status, value)`: store and notify only when status or value
changed, then mirror the loading progress into the future status cache. -/
def updateR (s : ResState) (status : LStatus) (value : Option Nat) : ResState :=
  let s₁ :=
    if s.current.status ≠ status ∨ s.current.value ≠ value then
      { s with
        current := ⟨status, value⟩
        notifications := s.notifications ++ [⟨status, value⟩] }
    else s
  if status = .loading then { s₁ with futureCache := some ⟨.pending, none⟩ }
  else if status = .failed then { s₁ with futureCache := some ⟨.rejectedS, value⟩ }
  else if status = .succeeded then
    { s₁ with futureCache := some ⟨.resolvedS, value⟩ }
  else s₁

/-- `d.resolve`/`d.reject` on the captured controller (first call wins);
the guard has already ensured the captured controller is the current one. -/
def deferSettle (st : DeferM.DStatus) (s : ResState) : ResState :=
  if s.deferStatus ≠ .pending then s else { s with deferStatus := st }

/-- The `waitAll` pending callback captured with controller `d`. -/
def onPendingCb (d : Nat) (s : ResState) : ResState :=
  if s.disposed ∨ d ≠ s.deferGen then s
  else updateR s .loading none

/-- The `waitAll` resolve callback captured with controller `d`. -/
def onResolvedCb (d : Nat) (v : Nat) (s : ResState) : ResState :=
  if s.disposed ∨ d ≠ s.deferGen then s
  else updateR (deferSettle .resolved s) .succeeded (some v)

/-- The `waitAll` reject callback captured with controller `d`. -/
def onRejectedCb (d : Nat) (e : Nat) (s : ResState) : ResState :=
  if s.disposed ∨ d ≠ s.deferGen then s
  else updateR (deferSettle .rejected s) .failed (some e)

/-- One run of the load effect body: return early when disposed or the
version is zero; replace a settled controller with a fresh one; invoke the
loader and the synchronous pending callback (the loader's promise is
classified pending until it settles). -/
def runEffectBody (s : ResState) : ResState :=
  if s.disposed ∨ s.version = 0 then s
  else
    let s₁ :=
      if s.deferStatus ≠ .pending then
        { s with deferGen := s.deferGen + 1, deferStatus := .pending }
      else s
    onPendingCb s₁.deferGen s₁

/-- State right after `createResource` returns (the effect's eager first
run saw version 0 and returned early). -/
def initRes : ResState :=
  { version := 0
    current := ⟨.idle, none⟩
    notifications := []
    deferGen := 0
    deferStatus := .pending
    futureCache := none
    disposed := false }

/-- `resource.load()`: set the version to 1 only when it is still 0, which
synchronously triggers the effect. -/
def load (s : ResState) : ResState :=
  if s.version = 0 then runEffectBody { s with version := 1 } else s

/-- `resource.reload()`: always increment the version, which triggers the
effect (the run is a no-op after dispose). -/
def reload (s : ResState) : ResState :=
  runEffectBody { s with version := s.version + 1 }

/-- `resource.dispose()`. -/
def disposeR (s : ResState) : ResState :=
  if s.disposed then s else { s with disposed := true }
end ResourceM

namespace ContainerGet

/-! ### container.get (src/lib/createContainer.ts)

For a model type, `get(type, key)` looks the type's entry up in the
registry (types are identity-keyed), then searches the entry's `instances`
array for `x` with `equal(x.key, key)` — `equal` is `@wry/equality`'s deep
structural comparison.  On a miss it builds a new instance, pushes
`{instance, key}` and returns it; on a hit it returns the cached
instance.  A JS key value is modelled as an object identity `id` paired
with its structural `shape`; `equal` compares only shapes, so two distinct
key objects of equal shape are `equal`.  Instances are modelled by their
allocation number.  (Re-entrant `get` calls from inside a model builder
are outside this model; `get` is one atomic step.) -/

/-- Structural shape of a key value. -/
inductive KShape
  | leaf (n : Nat)
  | node (a b : KShape)
deriving DecidableEq, Repr

/-- A JS key object: reference identity plus structural shape. -/
structure JSKey where
  id : Nat
  shape : KShape
deriving DecidableEq, Repr

/-- `@wry/equality`'s `equal`: deep structural comparison, independent of
reference identity. -/
def wryEqual (a b : JSKey) : Bool :=
  decide (a.shape = b.shape)

/-- One `{key, instance}` element of a type's `instances` array. -/
structure ModelEntry where
  key : JSKey
  instanceId : Nat
deriving DecidableEq, Repr

/-- The registry entry of one model type, plus the instance allocator. -/
structure TypeState where
  instances : List ModelEntry
  nextInstance : Nat
deriving DecidableEq, Repr

def initType : TypeState := ⟨[], 0⟩

/-- `get(type, key)` restricted to one model type: find an entry with a
deep-equal key, otherwise create and push a fresh instance. -/
def getModel (s : TypeState) (key : JSKey) : Nat × TypeState :=
  match s.instances.find? (fun x => wryEqual x.key key) with
  | some e => (e.instanceId, s)
  | none =>
      (s.nextInstance,
        ⟨s.instances ++ [⟨key, s.nextInstance⟩], s.nextInstance + 1⟩)

/-- Reachable registry states: keys pairwise structurally distinct (at
most one entry per deep-equal key), instance numbers below the allocator
and pairwise distinct. -/
def GetInv (s : TypeState) : Prop :=
  s.instances.Pairwise (fun a b => a.key.shape ≠ b.key.shape)
  ∧ (∀ e ∈ s.instances, e.instanceId < s.nextInstance)
  ∧ (s.instances.map (fun e => e.instanceId)).Nodup
end ContainerGet

namespace ContainerBackup

/-! ### container.backup (src/lib/createContainer.ts)

`backup()` reads `const prevRegistry = registry`, builds
`const newRegistry = new MapEx(registry)` (a fresh deep-equality copy of
the current contents) and returns a closure that reassigns
`registry = prevRegistry` only when `newRegistry === registry`.  The
source never assigns `newRegistry` to `registry`.  Reference identity of
registry map objects is modelled by a heap of numbered map objects:
`live` is the id the `registry` variable currently references, `nextId`
allocates fresh map objects, and in-place mutations (`registry.set`)
update the heap cell of the live id.  Registry contents are reduced to
the value entries written by `container.set(key, value)` with `Nat`
keys. -/

/-- heap lookup: contents of map object `i`. -/
def heapGet (h : List (Nat × List (Nat × Nat))) (i : Nat) : List (Nat × Nat) :=
  (((h.find? (fun e => e.1 = i)).map (fun e => e.2)).getD [])

/-- heap update: replace the contents of map object `i`. -/
def heapSet (h : List (Nat × List (Nat × Nat))) (i : Nat)
    (c : List (Nat × Nat)) : List (Nat × List (Nat × Nat)) :=
  h.map (fun e => if e.1 = i then (i, c) else e)

/-- `Map.prototype.set` on the association-list contents. -/
def assocSet (l : List (Nat × Nat)) (k v : Nat) : List (Nat × Nat) :=
  if l.any (fun e => e.1 = k) then
    l.map (fun e => if e.1 = k then (k, v) else e)
  else l ++ [(k, v)]

structure ContState where
  /-- map-object id → contents -/
  heap : List (Nat × List (Nat × Nat))
  /-- id of the map object the `registry` variable references -/
  live : Nat
  /-- allocator for fresh map objects -/
  nextId : Nat
deriving DecidableEq, Repr

/-- A fresh container: one empty registry map. -/
def initC : ContState := ⟨[(0, [])], 0, 1⟩

/-- `container.set(key, value)`: in-place mutation of the live registry. -/
def setValue (s : ContState) (k v : Nat) : ContState :=
  { s with heap := heapSet s.heap s.live (assocSet (heapGet s.heap s.live) k v) }

/-- The closure returned by `backup()`: the captured `prevRegistry` and
`newRegistry` references. -/
structure BackupToken where
  prevId : Nat
  newId : Nat
deriving DecidableEq, Repr

/-- `backup()`: capture `prevRegistry = registry`, allocate
`newRegistry = new MapEx(registry)` (a copy of the live contents).  The
source does NOT reassign `registry`, so `live` is unchanged. -/
def backup (s : ContState) : ContState × BackupToken :=
  ({ s with
      heap := s.heap ++ [(s.nextId, heapGet s.heap s.live)]
      nextId := s.nextId + 1 },
   ⟨s.live, s.nextId⟩)

/-- Running the restore closure: reassign `registry = prevRegistry` only
when `newRegistry === registry`. -/
def restore (t : BackupToken) (s : ContState) : ContState :=
  if t.newId = s.live then { s with live := t.prevId } else s

/-- What the container observes: the contents of the live registry. -/
def registryContents (s : ContState) : List (Nat × Nat) :=
  heapGet s.heap s.live
end ContainerBackup

namespace CallbackGroup

theorem count_foldl_eraseFirst (cs : List Cb) :
    ∀ (l : List Cb) (x : Cb),
      (cs.foldl eraseFirst l).count x = l.count x - min (cs.count x) (l.count x) := by
  induction cs with
  | nil => intro l x; simp
  | cons c cs ih =>
      intro l x
      simp only [List.foldl_cons]
      rw [ih]
      by_cases hcx : c = x
      · subst hcx
        simp only [eraseFirst, List.count_erase_self]
        by_cases hmem : c ∈ l
        · have h1 : 1 ≤ l.count c := List.one_le_count_iff.mpr hmem
          simp [List.count_cons_self]
          omega
        · have h0 : l.count c = 0 := List.count_eq_zero.mpr hmem
          simp [eraseFirst, List.count_cons_self, h0]
      · have : (l.erase c).count x = l.count x :=
          List.count_erase_of_ne (fun h => hcx h.symm) l
        simp only [eraseFirst, this]
        rw [List.count_cons_of_ne (fun h => hcx h.symm)]
end CallbackGroup

namespace StaticState

theorem length_filter_map_pair (l : List Nat) (c v : Nat) :
    ((l.map (fun a => (a, v))).filter (fun p => p.1 = c)).length = l.count c := by
  induction l with
  | nil => simp
  | cons a l ih =>
      by_cases h : a = c
      · simp [h, ih, List.count_cons]
      · simp [h, ih, List.count_cons]
end StaticState

namespace DeferM

theorem deferInv_initial : DeferInv initialDefer := by
  refine ⟨by simp [initialDefer], ?_, ?_⟩ <;> simp [initialDefer]

theorem deferInv_resolveD (s : DeferState) (v : Nat) (h : DeferInv s) :
    DeferInv (resolveD v s) := by
  obtain ⟨h1, h2, h3⟩ := h
  by_cases hrs : s.realStatus = .pending
  · have hst : s.status = .pending := by
      by_contra hc
      have heq := (h2 hc).1
      rw [hrs] at heq
      exact hc heq
    simp only [resolveD, hrs, not_true_eq_false, if_neg, ite_false]
    by_cases hp : s.isPausing
    · simp only [syncStatus, hp, or_true, if_pos]
      refine ⟨by simp, ?_, ?_⟩
      · intro hc; simp at hc; exact absurd hst hc
      · intro _; exact h3 hst
    · simp only [syncStatus, hp, or_false]
      rw [if_neg (by simp)]
      have hd : s.delivered = none := h3 hst
      refine ⟨by simp, ?_, ?_⟩
      · intro _
        simp [hd, hp]
      · intro hc; simp at hc
  · simp [resolveD, hrs]
    exact ⟨h1, h2, h3⟩

theorem deferInv_rejectD (s : DeferState) (e : Nat) (h : DeferInv s) :
    DeferInv (rejectD e s) := by
  obtain ⟨h1, h2, h3⟩ := h
  by_cases hrs : s.realStatus = .pending
  · have hst : s.status = .pending := by
      by_contra hc
      have heq := (h2 hc).1
      rw [hrs] at heq
      exact hc heq
    simp only [rejectD, hrs, not_true_eq_false, if_neg, ite_false]
    by_cases hp : s.isPausing
    · simp only [syncStatus, hp, or_true, if_pos]
      refine ⟨by simp, ?_, ?_⟩
      · intro hc; simp at hc; exact absurd hst hc
      · intro _; exact h3 hst
    · simp only [syncStatus, hp, or_false]
      rw [if_neg (by simp)]
      have hd : s.delivered = none := h3 hst
      refine ⟨by simp, ?_, ?_⟩
      · intro _
        simp [hd, hp]
      · intro hc; simp at hc
  · simp [rejectD, hrs]
    exact ⟨h1, h2, h3⟩

theorem deferInv_pauseD (s : DeferState) (h : DeferInv s) :
    DeferInv (pauseD s).1 := by
  obtain ⟨h1, h2, h3⟩ := h
  by_cases hst : s.status = .pending
  · simp only [pauseD, hst, not_true_eq_false, ite_false]
    exact ⟨h1, fun hc => absurd hst (by simp at hc), fun _ => h3 hst⟩
  · simp [pauseD, hst]
    exact ⟨h1, h2, h3⟩

theorem deferInv_unpauseD (s : DeferState) (b : Bool) (h : DeferInv s) :
    DeferInv (unpauseD b s) := by
  obtain ⟨h1, h2, h3⟩ := h
  cases b with
  | false => exact ⟨h1, h2, h3⟩
  | true =>
      by_cases hp : s.isPausing
      · have hst : s.status = .pending := by
          by_contra hc
          exact absurd (h2 hc).2.2 (by simp [hp])
        have hd : s.delivered = none := h3 hst
        have hstep : unpauseD true s = syncStatus { s with isPausing := false } := by
          simp [unpauseD, hp]
        rw [hstep]
        by_cases hrs : s.realStatus = .pending
        · have hsync : syncStatus { s with isPausing := false }
              = { s with isPausing := false } := by
            simp [syncStatus, hrs]
          rw [hsync]
          refine ⟨h1, ?_, fun _ => hd⟩
          intro hc
          exact absurd hst (by simpa using hc)
        · have hsync : syncStatus { s with isPausing := false } = { s with isPausing := false, status := s.realStatus, delivered := s.realValue } := by
            simp [syncStatus, hrs, hd]
          rw [hsync]
          refine ⟨h1, ?_, ?_⟩
          · intro _
            exact ⟨rfl, rfl, rfl⟩
          · intro hc
            simp only at hc
            exact absurd hc hrs
      · simp [unpauseD, hp]
        exact ⟨h1, h2, h3⟩
end DeferM

namespace EffectM

theorem foldl_readDep_counts {V : Type} (ds : List DepName) :
    ∀ (s : EffectState V) (d : DepName),
      (ds.foldl readDep s).counts d = s.counts d + ds.count d := by
  induction ds with
  | nil => intro s d; simp
  | cons a ds ih =>
      intro s d
      simp only [List.foldl_cons]
      rw [ih]
      by_cases h : d = a
      · subst h
        simp [readDep, updFn, List.count_cons]
        omega
      · simp [readDep, updFn, h, List.count_cons, Ne.symm h]

theorem foldl_readDep_cleanup {V : Type} (ds : List DepName) :
    ∀ (s : EffectState V), (ds.foldl readDep s).cleanup = s.cleanup ++ ds := by
  induction ds with
  | nil => intro s; simp
  | cons a ds ih =>
      intro s
      simp only [List.foldl_cons]
      rw [ih]
      simp [readDep]

theorem foldl_readDep_values {V : Type} (ds : List DepName) :
    ∀ (s : EffectState V), (ds.foldl readDep s).values = s.values := by
  induction ds with
  | nil => intro s; rfl
  | cons a ds ih =>
      intro s
      simp only [List.foldl_cons]
      rw [ih]
      rfl

theorem foldl_readDep_runs {V : Type} (ds : List DepName) :
    ∀ (s : EffectState V), (ds.foldl readDep s).runs = s.runs := by
  induction ds with
  | nil => intro s; rfl
  | cons a ds ih =>
      intro s
      simp only [List.foldl_cons]
      rw [ih]
      rfl

theorem foldl_unsubscribeDep (cl : List DepName) :
    ∀ (counts : DepName → Nat) (d : DepName),
      (cl.foldl unsubscribeDep counts) d = counts d - cl.count d := by
  induction cl with
  | nil => intro counts d; simp
  | cons a cl ih =>
      intro counts d
      simp only [List.foldl_cons]
      rw [ih]
      by_cases h : d = a
      · subst h
        simp [unsubscribeDep, updFn, List.count_cons]
        omega
      · simp [unsubscribeDep, updFn, h, List.count_cons, Ne.symm h]

theorem handleChange_spec {V : Type} (reads : (DepName → V) → List DepName)
    (s : EffectState V) (h : EffInv s) :
    (∀ d, (handleChange reads s).counts d = (reads s.values).count d)
  ∧ (handleChange reads s).cleanup = reads s.values
  ∧ (handleChange reads s).values = s.values
  ∧ (handleChange reads s).runs = s.runs + 1
  ∧ EffInv (handleChange reads s) := by
  have hcounts : ∀ d,
      (handleChange reads s).counts d = (reads s.values).count d := by
    intro d
    simp only [handleChange, runFn]
    rw [foldl_readDep_counts]
    have : (s.cleanup.foldl unsubscribeDep s.counts) d = 0 := by
      rw [foldl_unsubscribeDep, h d]
      omega
    simp [this]
  have hcleanup : (handleChange reads s).cleanup = reads s.values := by
    simp only [handleChange, runFn]
    rw [foldl_readDep_cleanup]
    simp
  have hvalues : (handleChange reads s).values = s.values := by
    simp only [handleChange, runFn]
    rw [foldl_readDep_values]
  have hruns : (handleChange reads s).runs = s.runs + 1 := by
    simp only [handleChange, runFn]
    rw [foldl_readDep_runs]
  exact ⟨hcounts, hcleanup, hvalues, hruns,
    fun d => by rw [hcounts d, hcleanup]⟩

theorem effInv_initial {V : Type} (reads : (DepName → V) → List DepName)
    (values : DepName → V) :
    EffInv (initialEffect reads values)
  ∧ (∀ d, (initialEffect reads values).counts d = (reads values).count d)
  ∧ (initialEffect reads values).values = values := by
  have hcounts : ∀ d,
      (initialEffect reads values).counts d = (reads values).count d := by
    intro d
    simp only [initialEffect, runFn]
    rw [foldl_readDep_counts]
    simp
  have hcleanup : (initialEffect reads values).cleanup = reads values := by
    simp only [initialEffect, runFn]
    rw [foldl_readDep_cleanup]
    simp
  have hvalues : (initialEffect reads values).values = values := by
    simp only [initialEffect, runFn]
    rw [foldl_readDep_values]
  exact ⟨fun d => by rw [hcounts d, hcleanup], hcounts, hvalues⟩

theorem iterate_handleChange_spec {V : Type}
    (reads : (DepName → V) → List DepName) (k : Nat) (s : EffectState V)
    (h : EffInv s) :
    EffInv ((handleChange reads)^[k] s)
  ∧ ((handleChange reads)^[k] s).values = s.values
  ∧ ((handleChange reads)^[k] s).runs = s.runs + k
  ∧ (0 < k →
      ∀ d, ((handleChange reads)^[k] s).counts d = (reads s.values).count d) := by
  induction k with
  | zero => exact ⟨h, rfl, rfl, fun hk => absurd hk (by omega)⟩
  | succ n ih =>
      obtain ⟨hinv, hvals, hruns, _⟩ := ih
      have hspec := handleChange_spec reads ((handleChange reads)^[n] s) hinv
      rw [Function.iterate_succ_apply']
      refine ⟨hspec.2.2.2.2, ?_, ?_, ?_⟩
      · rw [hspec.2.2.1, hvals]
      · rw [hspec.2.2.2.1, hruns]
        omega
      · intro _ d
        rw [hspec.1 d, hvals]
end EffectM

namespace ResourceM

theorem updateR_current (s : ResState) (status : LStatus) (value : Option Nat) :
    (updateR s status value).current
      = if s.current.status ≠ status ∨ s.current.value ≠ value then
          ⟨status, value⟩
        else s.current := by
  unfold updateR
  split <;> (repeat' split) <;> rfl

theorem updateR_version (s : ResState) (status : LStatus) (value : Option Nat) :
    (updateR s status value).version = s.version := by
  unfold updateR
  split <;> (repeat' split) <;> rfl

theorem onPendingCb_current_loading (d : Nat) (s : ResState)
    (hd : s.disposed = false) (hg : d = s.deferGen) :
    (onPendingCb d s).current.status = .loading := by
  unfold onPendingCb
  rw [if_neg (by simp [hd, hg])]
  rw [updateR_current]
  split
  · rfl
  · rename_i hcond
    push_neg at hcond
    simpa using hcond.1

theorem runEffectBody_loading (s : ResState) (hd : s.disposed = false)
    (hv : s.version ≠ 0) :
    (runEffectBody s).current.status = .loading := by
  unfold runEffectBody
  rw [if_neg (by simp [hd, hv])]
  split
  · exact onPendingCb_current_loading _ _ hd rfl
  · exact onPendingCb_current_loading _ _ hd rfl

theorem updateR_disposed (s : ResState) (status : LStatus) (value : Option Nat) :
    (updateR s status value).disposed = s.disposed := by
  unfold updateR
  split <;> (repeat' split) <;> rfl

theorem deferSettle_current (st : DeferM.DStatus) (s : ResState) :
    (deferSettle st s).current = s.current := by
  unfold deferSettle
  split <;> rfl

theorem deferSettle_disposed (st : DeferM.DStatus) (s : ResState) :
    (deferSettle st s).disposed = s.disposed := by
  unfold deferSettle
  split <;> rfl

theorem onResolvedCb_disposed (d v : Nat) (s : ResState) :
    (onResolvedCb d v s).disposed = s.disposed := by
  unfold onResolvedCb
  split
  · rfl
  · rw [updateR_disposed, deferSettle_disposed]

theorem onPendingCb_disposed (d : Nat) (s : ResState) :
    (onPendingCb d s).disposed = s.disposed := by
  unfold onPendingCb
  split
  · rfl
  · rw [updateR_disposed]

theorem runEffectBody_disposed (s : ResState) :
    (runEffectBody s).disposed = s.disposed := by
  unfold runEffectBody
  split
  · rfl
  · simp only [onPendingCb_disposed]
    split <;> rfl

theorem reload_disposed (s : ResState) :
    (reload s).disposed = s.disposed := by
  unfold reload
  rw [runEffectBody_disposed]

theorem load_disposed (s : ResState) :
    (load s).disposed = s.disposed := by
  unfold load
  split
  · rw [runEffectBody_disposed]
  · rfl

/-- A resolve callback passing the staleness guard always leaves the
resource `succeeded` with the delivered value. -/
theorem onResolvedCb_current_succeeded (s : ResState) (v : Nat)
    (hd : s.disposed = false) :
    (onResolvedCb s.deferGen v s).current = ⟨.succeeded, some v⟩ := by
  unfold onResolvedCb
  rw [if_neg (by simp [hd])]
  rw [updateR_current, deferSettle_current]
  split
  · rfl
  · rename_i hcond
    push_neg at hcond
    obtain ⟨h1, h2⟩ := hcond
    cases hcur : s.current
    rw [hcur] at h1 h2
    simp at h1 h2
    rw [h1, h2]

theorem onPendingCb_version (d : Nat) (s : ResState) :
    (onPendingCb d s).version = s.version := by
  unfold onPendingCb
  split
  · rfl
  · rw [updateR_version]

theorem runEffectBody_version (s : ResState) :
    (runEffectBody s).version = s.version := by
  unfold runEffectBody
  split
  · rfl
  · simp only [onPendingCb_version]
    split <;> rfl
end ResourceM

namespace ContainerGet

theorem getInv_initial : GetInv initType := by
  refine ⟨?_, ?_, ?_⟩ <;> simp [initType]

theorem getModel_found (s : TypeState) (k : JSKey) (e : ModelEntry)
    (h : s.instances.find? (fun x => wryEqual x.key k) = some e) :
    getModel s k = (e.instanceId, s) := by
  unfold getModel
  rw [h]

theorem getModel_not_found (s : TypeState) (k : JSKey)
    (h : s.instances.find? (fun x => wryEqual x.key k) = none) :
    getModel s k
      = (s.nextInstance,
          ⟨s.instances ++ [⟨k, s.nextInstance⟩], s.nextInstance + 1⟩) := by
  unfold getModel
  rw [h]

theorem find?_append_none {α : Type} (p : α → Bool) (l₁ l₂ : List α)
    (h : l₁.find? p = none) : (l₁ ++ l₂).find? p = l₂.find? p := by
  induction l₁ with
  | nil => simp
  | cons a t ih =>
      cases hpa : p a with
      | true =>
          rw [List.find?_cons_of_pos _ hpa] at h
          cases h
      | false =>
          rw [List.find?_cons_of_neg _ (by simp [hpa])] at h
          rw [List.cons_append, List.find?_cons_of_neg _ (by simp [hpa])]
          exact ih h

theorem find?_append_some {α : Type} (p : α → Bool) (l₁ l₂ : List α)
    (a : α) (h : l₁.find? p = some a) : (l₁ ++ l₂).find? p = some a := by
  induction l₁ with
  | nil => cases h
  | cons b t ih =>
      cases hpb : p b with
      | true =>
          rw [List.find?_cons_of_pos _ hpb] at h
          rw [List.cons_append, List.find?_cons_of_pos _ hpb]
          exact h
      | false =>
          rw [List.find?_cons_of_neg _ (by simp [hpb])] at h
          rw [List.cons_append, List.find?_cons_of_neg _ (by simp [hpb])]
          exact ih h

theorem wryEqual_pred_congr (k1 k2 : JSKey) (h : k1.shape = k2.shape) :
    (fun x : ModelEntry => wryEqual x.key k2)
      = (fun x : ModelEntry => wryEqual x.key k1) := by
  funext x
  unfold wryEqual
  rw [h]

theorem getInv_getModel (s : TypeState) (k : JSKey) (hinv : GetInv s) :
    GetInv (getModel s k).2 := by
  obtain ⟨hpair, hbound, hnodup⟩ := hinv
  cases hfind : s.instances.find? (fun x => wryEqual x.key k) with
  | some e =>
      rw [getModel_found s k e hfind]
      exact ⟨hpair, hbound, hnodup⟩
  | none =>
      rw [getModel_not_found s k hfind]
      have hnot : ∀ x ∈ s.instances, x.key.shape ≠ k.shape := by
        intro x hx
        have := List.find?_eq_none.mp hfind x hx
        simpa [wryEqual] using this
      refine ⟨?_, ?_, ?_⟩
      · rw [List.pairwise_append]
        refine ⟨hpair, by simp, ?_⟩
        intro a ha b hb
        simp only [List.mem_singleton] at hb
        rw [hb]
        exact hnot a ha
      · intro e he
        simp only [List.mem_append, List.mem_singleton] at he
        cases he with
        | inl h => exact Nat.lt_succ_of_lt (hbound e h)
        | inr h => rw [h]; exact Nat.lt_succ_self _
      · rw [List.map_append, List.nodup_append]
        refine ⟨hnodup, by simp, ?_⟩
        intro a ha hb
        simp only [List.map_cons, List.map_nil, List.mem_singleton] at hb
        obtain ⟨e, he, hea⟩ := List.mem_map.mp ha
        have hlt : a < s.nextInstance := hea ▸ hbound e he
        omega

theorem getModel_same_shape (s : TypeState) (k1 k2 : JSKey)
    (hsh : k1.shape = k2.shape) :
    (getModel (getModel s k1).2 k2).1 = (getModel s k1).1 := by
  have hpred := wryEqual_pred_congr k1 k2 hsh
  cases hfind : s.instances.find? (fun x => wryEqual x.key k1) with
  | some e =>
      rw [getModel_found s k1 e hfind]
      have hfind2 : s.instances.find? (fun x => wryEqual x.key k2) = some e := by
        rw [hpred]
        exact hfind
      rw [getModel_found s k2 e hfind2]
  | none =>
      rw [getModel_not_found s k1 hfind]
      have hnone2 : s.instances.find? (fun x => wryEqual x.key k2) = none := by
        rw [hpred]
        exact hfind
      have hone : [(⟨k1, s.nextInstance⟩ : ModelEntry)].find?
          (fun x => wryEqual x.key k2) = some ⟨k1, s.nextInstance⟩ := by
        apply List.find?_cons_of_pos
        simpa [wryEqual] using hsh
      have hfind2 :
          (s.instances ++ [(⟨k1, s.nextInstance⟩ : ModelEntry)]).find?
            (fun x => wryEqual x.key k2) = some ⟨k1, s.nextInstance⟩ := by
        rw [find?_append_none _ _ _ hnone2]
        exact hone
      rw [getModel_found _ k2 _ hfind2]

theorem getModel_diff_shape (s : TypeState) (k1 k2 : JSKey) (hinv : GetInv s)
    (hsh : k1.shape ≠ k2.shape) :
    (getModel (getModel s k1).2 k2).1 ≠ (getModel s k1).1 := by
  obtain ⟨hpair, hbound, hnodup⟩ := hinv
  cases hfind : s.instances.find? (fun x => wryEqual x.key k1) with
  | some e1 =>
      rw [getModel_found s k1 e1 hfind]
      have he1mem := List.mem_of_find?_eq_some hfind
      have he1sh : e1.key.shape = k1.shape := by
        have := List.find?_some hfind
        simpa [wryEqual] using this
      cases hfind2 : s.instances.find? (fun x => wryEqual x.key k2) with
      | some e2 =>
          rw [getModel_found s k2 e2 hfind2]
          have he2mem := List.mem_of_find?_eq_some hfind2
          have he2sh : e2.key.shape = k2.shape := by
            have := List.find?_some hfind2
            simpa [wryEqual] using this
          intro heq
          have : e2 = e1 :=
            List.inj_on_of_nodup_map hnodup he2mem he1mem heq
          rw [this, he1sh] at he2sh
          exact hsh he2sh
      | none =>
          rw [getModel_not_found s k2 hfind2]
          have := hbound e1 he1mem
          simp only [ne_eq]
          omega
  | none =>
      rw [getModel_not_found s k1 hfind]
      cases hfind2 : s.instances.find? (fun x => wryEqual x.key k2) with
      | some e2 =>
          have he2mem := List.mem_of_find?_eq_some hfind2
          have hfind2' :
              (s.instances ++ [(⟨k1, s.nextInstance⟩ : ModelEntry)]).find?
                (fun x => wryEqual x.key k2) = some e2 :=
            find?_append_some _ _ _ _ hfind2
          rw [getModel_found _ k2 _ hfind2']
          have := hbound e2 he2mem
          simp only [ne_eq]
          omega
      | none =>
          have hone : [(⟨k1, s.nextInstance⟩ : ModelEntry)].find?
              (fun x => wryEqual x.key k2) = none := by
            apply List.find?_cons_of_neg
            simpa [wryEqual] using hsh
          have hfind2' :
              (s.instances ++ [(⟨k1, s.nextInstance⟩ : ModelEntry)]).find?
                (fun x => wryEqual x.key k2) = none := by
            rw [find?_append_none _ _ _ hfind2]
            exact hone
          rw [getModel_not_found _ k2 hfind2']
          simp only [ne_eq]
          omega
end ContainerGet

/-- C9: the remove function returned by a single `callbackGroup` registration
call is idempotent, removes at most one stored occurrence of each callback
passed to that call (exactly `min` of the multiplicities), and leaves a
callback that was also registered through a different call still
subscribed. -/
theorem callbackGroup_remover_c9 (s : CallbackGroup.GroupState)
    (cs : List CallbackGroup.Cb) (x : CallbackGroup.Cb) :
    (CallbackGroup.runRemover (CallbackGroup.register s cs).2
        (CallbackGroup.register s cs).1).2.callbacks.count x
      = (CallbackGroup.register s cs).1.callbacks.count x
        - min (cs.count x) ((CallbackGroup.register s cs).1.callbacks.count x)
  ∧ (∀ (r : CallbackGroup.Remover) (t : CallbackGroup.GroupState),
      r.active = false → CallbackGroup.runRemover r t = (r, t))
  ∧ (CallbackGroup.runRemover (CallbackGroup.register s cs).2
        (CallbackGroup.register s cs).1).1.active = false
  ∧ (x ∈ s.callbacks →
      0 < (CallbackGroup.runRemover (CallbackGroup.register s cs).2
        (CallbackGroup.register s cs).1).2.callbacks.count x) := by
  refine ⟨?_, ?_, ?_, ?_⟩
  · simp [CallbackGroup.register, CallbackGroup.runRemover,
      CallbackGroup.count_foldl_eraseFirst]
  · intro r t hr
    simp [CallbackGroup.runRemover, hr]
  · simp [CallbackGroup.register, CallbackGroup.runRemover]
  · intro hx
    have hcount : 1 ≤ s.callbacks.count x := List.one_le_count_iff.mpr hx
    simp only [CallbackGroup.register, CallbackGroup.runRemover, if_pos]
    rw [CallbackGroup.count_foldl_eraseFirst]
    simp only [List.count_append]
    omega

/-- Witness for C9 at a concrete input: callback 7 registered both before
and by the removed registration call stays subscribed, and the remover is
spent after its first run. -/
theorem callbackGroup_remover_c9_witness :
    (7 ∈ (CallbackGroup.GroupState.mk [7]).callbacks)
  ∧ 0 < (CallbackGroup.runRemover (CallbackGroup.register ⟨[7]⟩ [7, 9]).2
        (CallbackGroup.register ⟨[7]⟩ [7, 9]).1).2.callbacks.count 7
  ∧ (CallbackGroup.runRemover (CallbackGroup.register ⟨[7]⟩ [7, 9]).2
        (CallbackGroup.register ⟨[7]⟩ [7, 9]).1).1.active = false :=
  ⟨by decide,
   (callbackGroup_remover_c9 ⟨[7]⟩ [7, 9] 7).2.2.2 (by decide),
   (callbackGroup_remover_c9 ⟨[7]⟩ [7, 9] 7).2.2.1⟩

/-- C6: writing a value identical to the current one to a static state is a
no-op with zero notifications; writing a different value stores it and
notifies every subscriber exactly once, synchronously, with the new value;
an updater function is applied to the previous value. -/
theorem staticState_write_c6 (s : StaticState.StateCell) (v : Nat)
    (f : Nat → Nat) (c : Nat) :
    (s.currentValue = v → StaticState.setValue s v = ⟨s, []⟩)
  ∧ (s.currentValue ≠ v →
      (StaticState.setValue s v).cell.currentValue = v
      ∧ (StaticState.setValue s v).notifications
          = s.subscribers.map (fun c => (c, v))
      ∧ ((StaticState.setValue s v).notifications.filter
            (fun p => p.1 = c)).length = s.subscribers.count c
      ∧ ∀ p ∈ (StaticState.setValue s v).notifications, p.2 = v)
  ∧ StaticState.setUpdater s f = StaticState.setValue s (f s.currentValue) := by
  refine ⟨?_, ?_, rfl⟩
  · intro h
    simp [StaticState.setValue, h]
  · intro h
    refine ⟨?_, ?_, ?_, ?_⟩
    · simp [StaticState.setValue, h]
    · simp [StaticState.setValue, h]
    · simp only [StaticState.setValue, if_neg h]
      exact StaticState.length_filter_map_pair s.subscribers c v
    · intro p hp
      simp only [StaticState.setValue, if_neg h] at hp
      obtain ⟨a, _, rfl⟩ := List.mem_map.mp hp
      rfl

/-- Witness for C6 at a concrete cell: a no-op write notifies nobody, a
changing write notifies subscriber 4 exactly once with the new value. -/
theorem staticState_write_c6_witness :
    StaticState.setValue ⟨5, [4]⟩ 5 = ⟨⟨5, [4]⟩, []⟩
  ∧ ((StaticState.setValue ⟨5, [4]⟩ 6).notifications.filter
        (fun p => p.1 = 4)).length = 1 :=
  ⟨(staticState_write_c6 ⟨5, [4]⟩ 5 id 4).1 rfl,
   by
    have h := ((staticState_write_c6 ⟨5, [4]⟩ 6 id 4).2.1 (by decide)).2.2.1
    simpa using h⟩

/-- C10: on the instance facade, reading `"init"` always yields `undefined`
even when the builder's props contain an `"init"` member (which property
enumeration still lists); reading `"dispose"` always yields the dispose
closure; any other string property resolves from the builder's props, and
an absent property reads as `undefined`. -/
theorem instanceProxy_get_c10 (props : List (String × InstanceProxy.PropVal))
    (pv : InstanceProxy.PropVal) (prop : String) :
    InstanceProxy.instanceGet props "init" = .undef
  ∧ (("init", pv) ∈ props → "init" ∈ InstanceProxy.instanceKeys props)
  ∧ InstanceProxy.instanceGet props "dispose" = .disposeFn
  ∧ (prop ≠ "init" → prop ≠ "dispose" →
      (props.find? (fun e => e.1 = prop) = none →
        InstanceProxy.instanceGet props prop = .undef)
      ∧ (∀ e, props.find? (fun e => e.1 = prop) = some e →
        InstanceProxy.instanceGet props prop = InstanceProxy.resolveDescr e.2)) := by
  refine ⟨rfl, ?_, rfl, ?_⟩
  · intro hmem
    simp only [InstanceProxy.instanceKeys, List.mem_append]
    exact Or.inl (List.mem_map.mpr ⟨("init", pv), hmem, rfl⟩)
  · intro h1 h2
    constructor
    · intro hnone
      simp [InstanceProxy.instanceGet, h1, h2, hnone]
    · intro e he
      simp [InstanceProxy.instanceGet, h1, h2, he]

/-- Witness for C10 at a concrete props object that does contain an
`"init"` member: reading it still yields `undefined` while it is
enumerated, `"dispose"` reads as the dispose closure, and `"x"` resolves
from the props. -/
theorem instanceProxy_get_c10_witness :
    InstanceProxy.instanceGet
        [("init", .plain 3), ("x", .plain 5)] "init" = .undef
  ∧ ("init" ∈ InstanceProxy.instanceKeys [("init", .plain 3), ("x", .plain 5)])
  ∧ InstanceProxy.instanceGet
        [("init", .plain 3), ("x", .plain 5)] "dispose" = .disposeFn
  ∧ InstanceProxy.instanceGet [("init", .plain 3), ("x", .plain 5)] "x"
      = InstanceProxy.resolveDescr (.plain 5) := by
  have h := instanceProxy_get_c10 [("init", .plain 3), ("x", .plain 5)]
    (.plain 3) "x"
  exact ⟨h.1, h.2.1 (by simp), h.2.2.1,
    (h.2.2.2 (by decide) (by decide)).2 ("x", .plain 5) (by decide)⟩

/-- C4: `waitAll` with any rejected element throws (or passes to
`onRejected`) that element's rejection reason, taking precedence over
pending elements; with no rejected but some pending element the
synchronous form throws the combined future while the callback form
invokes `onPending`; with all elements resolved it returns (or passes to
`onResolved`) the list of values in input order. -/
theorem waitAll_cases_c4 (rs : List AsyncWait.PResult) :
    ((∃ r ∈ rs, r.status = .rejectedS) →
      ∃ r ∈ rs, r.status = .rejectedS
        ∧ AsyncWait.waitAllSync rs = .threwReason r.value
        ∧ AsyncWait.waitAllCb rs = .calledRejected r.value)
  ∧ ((∀ r ∈ rs, r.status ≠ .rejectedS) → (∃ r ∈ rs, r.status = .pending) →
      AsyncWait.waitAllSync rs = .threwCombined
        ∧ AsyncWait.waitAllCb rs = .calledPending)
  ∧ ((∀ r ∈ rs, r.status = .resolvedS) →
      AsyncWait.waitAllSync rs = .returned (rs.map (fun r => r.value))
        ∧ AsyncWait.waitAllCb rs = .calledResolved (rs.map (fun r => r.value))) := by
  refine ⟨?_, ?_, ?_⟩
  · intro hex
    have hsome : (rs.find? (fun r => decide (r.status = .rejectedS))).isSome := by
      rw [List.find?_isSome]
      obtain ⟨r, hr, hst⟩ := hex
      exact ⟨r, hr, by simp [hst]⟩
    obtain ⟨r, hfind⟩ := Option.isSome_iff_exists.mp hsome
    refine ⟨r, List.mem_of_find?_eq_some hfind, ?_, ?_, ?_⟩
    · have := List.find?_some hfind
      simpa using this
    · simp [AsyncWait.waitAllSync, hfind]
    · simp [AsyncWait.waitAllCb, hfind]
  · intro hall hex
    have hnone : rs.find? (fun r => decide (r.status = .rejectedS)) = none := by
      rw [List.find?_eq_none]
      intro r hr
      simp [hall r hr]
    have hany : rs.any (fun r => decide (r.status = .pending)) = true := by
      rw [List.any_eq_true]
      obtain ⟨r, hr, hst⟩ := hex
      exact ⟨r, hr, by simp [hst]⟩
    constructor
    · simp [AsyncWait.waitAllSync, hnone, hany]
    · simp [AsyncWait.waitAllCb, hnone, hany]
  · intro hall
    have hnone : rs.find? (fun r => decide (r.status = .rejectedS)) = none := by
      rw [List.find?_eq_none]
      intro r hr
      simp [hall r hr]
    have hany : rs.any (fun r => decide (r.status = .pending)) = false := by
      rw [List.any_eq_false]
      intro r hr
      simp [hall r hr]
    constructor
    · simp [AsyncWait.waitAllSync, hnone, hany]
    · simp [AsyncWait.waitAllCb, hnone, hany]

/-- Witness for C4: on `[resolved 1, rejected 9]` both forms surface the
rejection reason 9; on `[resolved 1, pending]` the synchronous form throws
the combined future and the callback form calls `onPending`; on
`[resolved 1, resolved 2]` the values `[1, 2]` come back in order. -/
theorem waitAll_cases_c4_witness :
    AsyncWait.waitAllSync [⟨.resolvedS, some 1⟩, ⟨.rejectedS, some 9⟩]
        = .threwReason (some 9)
  ∧ AsyncWait.waitAllSync [⟨.resolvedS, some 1⟩, ⟨.pending, none⟩]
        = .threwCombined
  ∧ AsyncWait.waitAllCb [⟨.resolvedS, some 1⟩, ⟨.pending, none⟩]
        = .calledPending
  ∧ AsyncWait.waitAllSync [⟨.resolvedS, some 1⟩, ⟨.resolvedS, some 2⟩]
        = .returned [some 1, some 2] := by
  have h1 := (waitAll_cases_c4 [⟨.resolvedS, some 1⟩, ⟨.rejectedS, some 9⟩]).1
    ⟨⟨.rejectedS, some 9⟩, by decide, rfl⟩
  have h2 := (waitAll_cases_c4 [⟨.resolvedS, some 1⟩, ⟨.pending, none⟩]).2.1
    (by decide) ⟨⟨.pending, none⟩, by decide, rfl⟩
  have h3 := (waitAll_cases_c4 [⟨.resolvedS, some 1⟩, ⟨.resolvedS, some 2⟩]).2.2
    (by decide)
  obtain ⟨r, hmem, hst, hsync, hcb⟩ := h1
  have hr : r = ⟨.rejectedS, some 9⟩ := by
    cases hmem with
    | head => exact absurd hst (by decide)
    | tail _ hm =>
        cases hm with
        | head => rfl
        | tail _ hm => cases hm
  refine ⟨?_, h2.1, h2.2, by simpa using h3.1⟩
  rw [hsync, hr]

/-- C7: once a deferred controller is resolved or rejected the decided
outcome is permanent — later resolve/reject calls are ignored and
pause/unpause never alter the decided status or outcome, only its
delivery; pause after the outcome has been settled and delivered is a
no-op returning the inert unpause; a live unpause delivers an
already-decided outcome immediately. -/
theorem defer_settlement_c7 (s : DeferM.DeferState) (v e : Nat)
    (b : Bool) (o : DeferM.Outcome) :
    (s.realStatus = .pending →
      (DeferM.resolveD v s).realStatus = .resolved
        ∧ (DeferM.resolveD v s).realValue = some (.value v)
        ∧ (DeferM.rejectD e s).realStatus = .rejected
        ∧ (DeferM.rejectD e s).realValue = some (.reason e))
  ∧ (s.realStatus ≠ .pending →
      DeferM.resolveD v s = s ∧ DeferM.rejectD e s = s)
  ∧ ((DeferM.pauseD s).1.realStatus = s.realStatus
      ∧ (DeferM.pauseD s).1.realValue = s.realValue
      ∧ (DeferM.unpauseD b s).realStatus = s.realStatus
      ∧ (DeferM.unpauseD b s).realValue = s.realValue)
  ∧ (s.status ≠ .pending → DeferM.pauseD s = (s, false))
  ∧ (DeferM.DeferInv s → s.isPausing = true → s.realValue = some o →
      (DeferM.unpauseD true s).delivered = some o
        ∧ (DeferM.unpauseD true s).status = s.realStatus
        ∧ (DeferM.unpauseD true s).isPausing = false)
  ∧ (DeferM.DeferInv s → s.isPausing = true → s.realStatus = .pending →
      (DeferM.resolveD v s).status = .pending
        ∧ (DeferM.resolveD v s).delivered = none
        ∧ (DeferM.resolveD v s).realValue = some (.value v)) := by
  refine ⟨?_, ?_, ?_, ?_, ?_, ?_⟩
  · intro hrs
    refine ⟨?_, ?_, ?_, ?_⟩ <;>
      simp [DeferM.resolveD, DeferM.rejectD, DeferM.syncStatus, hrs] <;>
      split <;> simp
  · intro hrs
    constructor <;> simp [DeferM.resolveD, DeferM.rejectD, hrs]
  · refine ⟨?_, ?_, ?_, ?_⟩
    · simp only [DeferM.pauseD]
      split <;> rfl
    · simp only [DeferM.pauseD]
      split <;> rfl
    · cases b with
      | false => rfl
      | true =>
          simp only [DeferM.unpauseD, if_true]
          split
          · simp only [DeferM.syncStatus]
            split <;> rfl
          · rfl
    · cases b with
      | false => rfl
      | true =>
          simp only [DeferM.unpauseD, if_true]
          split
          · simp only [DeferM.syncStatus]
            split <;> rfl
          · rfl
  · intro hst
    simp [DeferM.pauseD, hst]
  · intro hinv hp ho
    obtain ⟨h1, h2, h3⟩ := hinv
    have hrs : s.realStatus ≠ .pending := by
      intro hc
      have := h1.mpr hc
      rw [ho] at this
      cases this
    have hst : s.status = .pending := by
      by_contra hc
      exact absurd (h2 hc).2.2 (by simp [hp])
    have hd : s.delivered = none := h3 hst
    have hstep : DeferM.unpauseD true s = DeferM.syncStatus { s with isPausing := false } := by
      simp [DeferM.unpauseD, hp]
    rw [hstep]
    have hsync : DeferM.syncStatus { s with isPausing := false } = { s with isPausing := false, status := s.realStatus, delivered := s.realValue } := by
      simp [DeferM.syncStatus, hrs, hd]
    rw [hsync, ho]
    exact ⟨rfl, rfl, rfl⟩
  · intro hinv hp hrs
    obtain ⟨h1, h2, h3⟩ := hinv
    have hst : s.status = .pending := by
      by_contra hc
      exact absurd (h2 hc).2.2 (by simp [hp])
    have hd : s.delivered = none := h3 hst
    have hstep : DeferM.resolveD v s = DeferM.syncStatus { s with realStatus := .resolved, realValue := some (.value v) } := by
      simp [DeferM.resolveD, hrs]
    rw [hstep]
    have hsync : DeferM.syncStatus { s with realStatus := .resolved, realValue := some (.value v) } = { s with realStatus := .resolved, realValue := some (.value v) } := by
      simp [DeferM.syncStatus, hp]
    rw [hsync]
    exact ⟨hst, hd, rfl⟩

/-- Witness for C7 on a concrete run: resolve then a late reject and a late
resolve leave the outcome fixed at `value 3`; pause on the delivered
controller is inert; pausing first suppresses delivery, and the live
unpause then delivers the decided outcome. -/
theorem defer_settlement_c7_witness :
    (DeferM.rejectD 9 (DeferM.resolveD 3 DeferM.initialDefer)
        = DeferM.resolveD 3 DeferM.initialDefer)
  ∧ (DeferM.resolveD 4 (DeferM.resolveD 3 DeferM.initialDefer)
        = DeferM.resolveD 3 DeferM.initialDefer)
  ∧ DeferM.pauseD (DeferM.resolveD 3 DeferM.initialDefer)
        = (DeferM.resolveD 3 DeferM.initialDefer, false)
  ∧ (DeferM.resolveD 3 ((DeferM.pauseD DeferM.initialDefer).1)).delivered = none
  ∧ (DeferM.unpauseD true
        (DeferM.resolveD 3 ((DeferM.pauseD DeferM.initialDefer).1))).delivered
        = some (.value 3) := by
  have hsettled : (DeferM.resolveD 3 DeferM.initialDefer).realStatus ≠ .pending := by
    decide
  have hdelivered : (DeferM.resolveD 3 DeferM.initialDefer).status ≠ .pending := by
    decide
  have hA := (defer_settlement_c7 (DeferM.resolveD 3 DeferM.initialDefer)
    4 9 false (.value 3)).2.1 hsettled
  have hB := (defer_settlement_c7 (DeferM.resolveD 3 DeferM.initialDefer)
    4 9 false (.value 3)).2.2.2.1 hdelivered
  have hpausedInv : DeferM.DeferInv ((DeferM.pauseD DeferM.initialDefer).1) :=
    DeferM.deferInv_pauseD DeferM.initialDefer DeferM.deferInv_initial
  have hC := (defer_settlement_c7 ((DeferM.pauseD DeferM.initialDefer).1)
    3 9 false (.value 3)).2.2.2.2.2 hpausedInv (by decide) (by decide)
  have hresInv : DeferM.DeferInv
      (DeferM.resolveD 3 ((DeferM.pauseD DeferM.initialDefer).1)) :=
    DeferM.deferInv_resolveD _ 3 hpausedInv
  have hD := (defer_settlement_c7
    (DeferM.resolveD 3 ((DeferM.pauseD DeferM.initialDefer).1))
    4 9 false (.value 3)).2.2.2.2.1 hresInv (by decide) (by decide)
  exact ⟨hA.2, hA.1, hB, hC.2.1, hD.1⟩

/-- C8: after any run of an effect, the live subscriptions are exactly the
dependencies read during that run (one per read); subscriptions of the
previous run are fully cleared before each rerun, so a change to a
dependency not read on the latest run does not rerun the effect, while a
change to a read dependency reruns it and rewires to the latest run's
reads. -/
theorem effect_subscriptions_c8 {V : Type}
    (reads : (EffectM.DepName → V) → List EffectM.DepName)
    (s : EffectM.EffectState V) (d : EffectM.DepName) (v : V)
    (values₀ : EffectM.DepName → V) :
    (EffectM.EffInv s →
      (∀ e, (EffectM.handleChange reads s).counts e = (reads s.values).count e)
      ∧ (EffectM.handleChange reads s).runs = s.runs + 1)
  ∧ (∀ e, (EffectM.initialEffect reads values₀).counts e
        = (reads values₀).count e)
  ∧ (s.counts d = 0 →
      (EffectM.changeDep reads s d v).runs = s.runs
      ∧ (∀ e, (EffectM.changeDep reads s d v).counts e = s.counts e))
  ∧ (EffectM.EffInv s → 0 < s.counts d →
      s.runs < (EffectM.changeDep reads s d v).runs
      ∧ (∀ e, (EffectM.changeDep reads s d v).counts e
          = (reads (EffectM.updFn s.values d v)).count e)) := by
  refine ⟨?_, ?_, ?_, ?_⟩
  · intro hinv
    have h := EffectM.handleChange_spec reads s hinv
    exact ⟨h.1, h.2.2.2.1⟩
  · exact (EffectM.effInv_initial reads values₀).2.1
  · intro h0
    unfold EffectM.changeDep
    rw [h0]
    exact ⟨rfl, fun e => rfl⟩
  · intro hinv hpos
    have hinv' : EffectM.EffInv { s with values := EffectM.updFn s.values d v } :=
      fun e => hinv e
    have h := EffectM.iterate_handleChange_spec reads (s.counts d)
      { s with values := EffectM.updFn s.values d v } hinv'
    unfold EffectM.changeDep
    exact ⟨by rw [h.2.2.1]; show s.runs < s.runs + s.counts d; omega,
      fun e => h.2.2.2 hpos e⟩

/-- Witness for C8 on the conditional-reads effect
`fn = if dep0 = 0 then read dep0 else read dep0, dep1`: after the first
run only dep0 is wired, so changing dep1 does not rerun, while changing
dep0 reruns the effect and wires dep1 according to the latest run. -/
theorem effect_subscriptions_c8_witness :
    (EffectM.changeDep (fun vals => if vals 0 = 0 then [0] else [0, 1])
        (EffectM.initialEffect (fun vals => if vals 0 = 0 then [0] else [0, 1])
          (fun _ => 0)) 1 5).runs
      = (EffectM.initialEffect (fun vals => if vals 0 = 0 then [0] else [0, 1])
          (fun _ => 0)).runs
  ∧ (EffectM.initialEffect (fun vals => if vals 0 = 0 then [0] else [0, 1])
        (fun _ => 0)).runs
      < (EffectM.changeDep (fun vals => if vals 0 = 0 then [0] else [0, 1])
          (EffectM.initialEffect (fun vals => if vals 0 = 0 then [0] else [0, 1])
            (fun _ => 0)) 0 1).runs
  ∧ (EffectM.changeDep (fun vals => if vals 0 = 0 then [0] else [0, 1])
        (EffectM.initialEffect (fun vals => if vals 0 = 0 then [0] else [0, 1])
          (fun _ => 0)) 0 1).counts 1 = 1 := by
  have hInv := (EffectM.effInv_initial
    (fun vals : Nat → Nat => if vals 0 = 0 then [0] else [0, 1]) (fun _ => 0)).1
  have h := effect_subscriptions_c8
    (fun vals => if vals 0 = 0 then [0] else [0, 1])
    (EffectM.initialEffect (fun vals => if vals 0 = 0 then [0] else [0, 1])
      (fun _ => 0)) 0 1 (fun _ => 0)
  have h' := effect_subscriptions_c8
    (fun vals => if vals 0 = 0 then [0] else [0, 1])
    (EffectM.initialEffect (fun vals => if vals 0 = 0 then [0] else [0, 1])
      (fun _ => 0)) 1 5 (fun _ => 0)
  have hc0 : (EffectM.initialEffect
      (fun vals : Nat → Nat => if vals 0 = 0 then [0] else [0, 1])
      (fun _ => 0)).counts 1 = 0 := by decide
  have hpos : 0 < (EffectM.initialEffect
      (fun vals : Nat → Nat => if vals 0 = 0 then [0] else [0, 1])
      (fun _ => 0)).counts 0 := by decide
  refine ⟨(h'.2.2.1 hc0).1, (h.2.2.2 hInv hpos).1, ?_⟩
  rw [(h.2.2.2 hInv hpos).2 1]
  decide

/-- C2 (the staleness guard itself): a load completion callback firing
after the resource has been disposed, or whose captured deferred
controller is no longer the resource's current controller, leaves the
resource state completely untouched — no loadable transition, no
subscriber notification, no settling of the current controller. -/
theorem resource_stale_guard_c2 (s : ResourceM.ResState) (d v e : Nat)
    (h : s.disposed = true ∨ d ≠ s.deferGen) :
    ResourceM.onResolvedCb d v s = s
  ∧ ResourceM.onRejectedCb d e s = s
  ∧ ResourceM.onPendingCb d s = s := by
  refine ⟨?_, ?_, ?_⟩
  · unfold ResourceM.onResolvedCb
    rw [if_pos (by simpa using h)]
  · unfold ResourceM.onRejectedCb
    rw [if_pos (by simpa using h)]
  · unfold ResourceM.onPendingCb
    rw [if_pos (by simpa using h)]

/-- Witness for C2's guard at a concrete state: callbacks carrying a
controller older than the current one write nothing. -/
theorem resource_stale_guard_c2_witness :
    ResourceM.onResolvedCb 1 9 ResourceM.initRes = ResourceM.initRes
  ∧ ResourceM.onRejectedCb 1 9 ResourceM.initRes = ResourceM.initRes
  ∧ ResourceM.onPendingCb 1 ResourceM.initRes = ResourceM.initRes :=
  resource_stale_guard_c2 ResourceM.initRes 1 9 9 (Or.inr (by decide))

/-- Counterexample to C2's superseded-load sentence: `reload()` issued
while the first load is still in flight reuses the same (still pending)
deferred controller, so when the newer load has settled with value 8 the
superseded first load's completion still passes the
`disposed || d !== defer` guard and overwrites the state with its value 7
and notifies subscribers — the claim requires it to write nothing. -/
theorem resource_superseded_write_c2_counterexample :
    (ResourceM.load ResourceM.initRes).current.status = .loading
  ∧ (ResourceM.reload (ResourceM.load ResourceM.initRes)).deferGen
      = (ResourceM.load ResourceM.initRes).deferGen
  ∧ (ResourceM.onResolvedCb
      (ResourceM.reload (ResourceM.load ResourceM.initRes)).deferGen 8
      (ResourceM.reload (ResourceM.load ResourceM.initRes))).current
      = ⟨.succeeded, some 8⟩
  ∧ ResourceM.onResolvedCb (ResourceM.load ResourceM.initRes).deferGen 7
      (ResourceM.onResolvedCb
        (ResourceM.reload (ResourceM.load ResourceM.initRes)).deferGen 8
        (ResourceM.reload (ResourceM.load ResourceM.initRes)))
      ≠ ResourceM.onResolvedCb
        (ResourceM.reload (ResourceM.load ResourceM.initRes)).deferGen 8
        (ResourceM.reload (ResourceM.load ResourceM.initRes))
  ∧ (ResourceM.onResolvedCb (ResourceM.load ResourceM.initRes).deferGen 7
      (ResourceM.onResolvedCb
        (ResourceM.reload (ResourceM.load ResourceM.initRes)).deferGen 8
        (ResourceM.reload (ResourceM.load ResourceM.initRes)))).current.value
      = some 7 := by
  decide

/-- C5: a fresh resource is `idle` with version 0; `load()` is a no-op
whenever the version is non-zero; `reload()` always advances the version
and (on a live resource) re-triggers the load effect, putting the resource
in `loading`; after `load()` the resource goes through `loading` to
`succeeded(value)` when the loader settles, and `reload()` from
`succeeded` goes back to `loading` and then to the new result. -/
theorem resource_lifecycle_c5 (s : ResourceM.ResState) (v w : Nat) :
    ResourceM.initRes.current.status = .idle
  ∧ ResourceM.initRes.version = 0
  ∧ (s.version ≠ 0 → ResourceM.load s = s)
  ∧ (ResourceM.reload s).version = s.version + 1
  ∧ (s.disposed = false → (ResourceM.reload s).current.status = .loading)
  ∧ (ResourceM.load ResourceM.initRes).current.status = .loading
  ∧ (ResourceM.onResolvedCb (ResourceM.load ResourceM.initRes).deferGen v
        (ResourceM.load ResourceM.initRes)).current = ⟨.succeeded, some v⟩
  ∧ (ResourceM.reload (ResourceM.onResolvedCb
        (ResourceM.load ResourceM.initRes).deferGen v
        (ResourceM.load ResourceM.initRes))).current.status = .loading
  ∧ (ResourceM.onResolvedCb
        (ResourceM.reload (ResourceM.onResolvedCb
          (ResourceM.load ResourceM.initRes).deferGen v
          (ResourceM.load ResourceM.initRes))).deferGen w
        (ResourceM.reload (ResourceM.onResolvedCb
          (ResourceM.load ResourceM.initRes).deferGen v
          (ResourceM.load ResourceM.initRes)))).current
      = ⟨.succeeded, some w⟩ := by
  have hreload : ∀ t : ResourceM.ResState, t.disposed = false →
      (ResourceM.reload t).current.status = .loading := by
    intro t ht
    unfold ResourceM.reload
    exact ResourceM.runEffectBody_loading _ (by simpa using ht) (by simp)
  have hLd : (ResourceM.load ResourceM.initRes).disposed = false := by decide
  have hS2d : (ResourceM.onResolvedCb (ResourceM.load ResourceM.initRes).deferGen v
      (ResourceM.load ResourceM.initRes)).disposed = false := by
    rw [ResourceM.onResolvedCb_disposed]
    exact hLd
  have hR2d : (ResourceM.reload (ResourceM.onResolvedCb
      (ResourceM.load ResourceM.initRes).deferGen v
      (ResourceM.load ResourceM.initRes))).disposed = false := by
    rw [ResourceM.reload_disposed]
    exact hS2d
  refine ⟨rfl, rfl, ?_, ?_, hreload s, by decide, ?_, ?_, ?_⟩
  · intro hv
    unfold ResourceM.load
    rw [if_neg hv]
  · unfold ResourceM.reload
    rw [ResourceM.runEffectBody_version]
  · exact ResourceM.onResolvedCb_current_succeeded _ v hLd
  · exact hreload _ hS2d
  · exact ResourceM.onResolvedCb_current_succeeded _ w hR2d

/-- Witness for C5 at concrete inputs: a second `load()` is a no-op on the
already-loading resource, `reload()` bumps the version from 1 to 2 and
puts the resource back in `loading`, and the first load's settlement with
3 yields `succeeded 3`. -/
theorem resource_lifecycle_c5_witness :
    ResourceM.load (ResourceM.load ResourceM.initRes)
      = ResourceM.load ResourceM.initRes
  ∧ (ResourceM.reload (ResourceM.load ResourceM.initRes)).version = 2
  ∧ (ResourceM.reload (ResourceM.load ResourceM.initRes)).current.status
      = .loading
  ∧ (ResourceM.onResolvedCb (ResourceM.load ResourceM.initRes).deferGen 3
      (ResourceM.load ResourceM.initRes)).current = ⟨.succeeded, some 3⟩ := by
  have h := resource_lifecycle_c5 (ResourceM.load ResourceM.initRes) 3 4
  refine ⟨h.2.2.1 (by decide), ?_, h.2.2.2.2.1 (by decide), ?_⟩
  · rw [h.2.2.2.1]
    decide
  · exact (resource_lifecycle_c5 ResourceM.initRes 3 4).2.2.2.2.2.2.1

/-- C3: on a reachable registry, two `get` calls with structurally equal
keys return the identical instance (even for distinct key objects), the
registry keeps at most one `{key, instance}` pair per deep-equal key
(the invariant is preserved by `get`), and `get` calls with structurally
different keys return different instances. -/
theorem container_get_c3 (s : ContainerGet.TypeState)
    (k1 k2 : ContainerGet.JSKey) :
    (k1.shape = k2.shape →
      (ContainerGet.getModel (ContainerGet.getModel s k1).2 k2).1
        = (ContainerGet.getModel s k1).1)
  ∧ (ContainerGet.GetInv s → ContainerGet.GetInv (ContainerGet.getModel s k1).2)
  ∧ (ContainerGet.GetInv s → k1.shape ≠ k2.shape →
      (ContainerGet.getModel (ContainerGet.getModel s k1).2 k2).1
        ≠ (ContainerGet.getModel s k1).1) :=
  ⟨fun hsh => ContainerGet.getModel_same_shape s k1 k2 hsh,
   fun hinv => ContainerGet.getInv_getModel s k1 hinv,
   fun hinv hsh => ContainerGet.getModel_diff_shape s k1 k2 hinv hsh⟩

/-- Witness for C3 on an empty container: the key objects `(id 0, leaf 1)`
and `(id 5, leaf 1)` are distinct objects of equal shape and resolve to
the identical instance; the shape `leaf 2` key resolves to a different
instance; the invariant holds after the first `get`. -/
theorem container_get_c3_witness :
    (ContainerGet.getModel
        (ContainerGet.getModel ContainerGet.initType ⟨0, .leaf 1⟩).2
        ⟨5, .leaf 1⟩).1
      = (ContainerGet.getModel ContainerGet.initType ⟨0, .leaf 1⟩).1
  ∧ (ContainerGet.getModel
        (ContainerGet.getModel ContainerGet.initType ⟨0, .leaf 1⟩).2
        ⟨7, .leaf 2⟩).1
      ≠ (ContainerGet.getModel ContainerGet.initType ⟨0, .leaf 1⟩).1
  ∧ ContainerGet.GetInv
      (ContainerGet.getModel ContainerGet.initType ⟨0, .leaf 1⟩).2 := by
  have h := container_get_c3 ContainerGet.initType ⟨0, .leaf 1⟩ ⟨5, .leaf 1⟩
  have h2 := container_get_c3 ContainerGet.initType ⟨0, .leaf 1⟩ ⟨7, .leaf 2⟩
  exact ⟨h.1 rfl,
    h2.2.2 ContainerGet.getInv_initial (by decide),
    h.2.1 ContainerGet.getInv_initial⟩

/-- C1 evaluated on the code: after `backup()` on an empty registry,
`set` stores `(1, 42)`; running the restore closure returned by that
`backup()` — with no later backup taken — leaves the registry unchanged
(still `[(1, 42)]`) instead of restoring the empty snapshot, because the
fresh `newRegistry` copy is never installed as the live `registry`, so
the `newRegistry === registry` guard can never hold. -/
theorem container_backup_c1_code_eval :
    ContainerBackup.registryContents (ContainerBackup.backup ContainerBackup.initC).1 = []
  ∧ ContainerBackup.registryContents
      (ContainerBackup.setValue (ContainerBackup.backup ContainerBackup.initC).1 1 42)
      = [(1, 42)]
  ∧ ContainerBackup.restore (ContainerBackup.backup ContainerBackup.initC).2
      (ContainerBackup.setValue (ContainerBackup.backup ContainerBackup.initC).1 1 42)
      = ContainerBackup.setValue (ContainerBackup.backup ContainerBackup.initC).1 1 42
  ∧ ContainerBackup.registryContents
      (ContainerBackup.restore (ContainerBackup.backup ContainerBackup.initC).2
        (ContainerBackup.setValue
          (ContainerBackup.backup ContainerBackup.initC).1 1 42))
      = [(1, 42)] := by
  decide
